import Mathlib

/-!
Verification of the ingestion-and-notification pipeline of an IPFS
file-sharing demo server, shallowly embedded from the Go source
(`ipfs/main.go` and the libp2p peer code).

Strings from the source are modelled as `List Char`; the ledger file is
modelled as the list of its lines; machine int64 sizes are modelled as `Int`.
-/

/-- `strL s` is the character list of a string literal. -/
def strL (s : String) : List Char := s.data

/-- Prepend a character to the first chunk of a split result
(helper for the split functions below). -/
def consHead (c : Char) : List (List Char) → List (List Char)
  | [] => [[c]]
  | p :: ps => (c :: p) :: ps

/-- `splitSep c1 c2 s` models Go `strings.Split(s, string([c1,c2]))` for a
two-character separator: split at every leftmost non-overlapping occurrence. -/
def splitSep (c1 c2 : Char) : List Char → List (List Char)
  | [] => [[]]
  | [x] => [[x]]
  | x :: y :: rest =>
    if x = c1 ∧ y = c2 then [] :: splitSep c1 c2 rest
    else consHead x (splitSep c1 c2 (y :: rest))

/-- `splitSep2 c1 c2 s` models Go `strings.SplitN(s, string([c1,c2]), 2)`:
split at the first occurrence only. -/
def splitSep2 (c1 c2 : Char) : List Char → List (List Char)
  | [] => [[]]
  | [x] => [[x]]
  | x :: y :: rest =>
    if x = c1 ∧ y = c2 then [[], rest]
    else consHead x (splitSep2 c1 c2 (y :: rest))

/-- `hasSep c1 c2 s` is true when the two-character separator occurs in `s`. -/
def hasSep (c1 c2 : Char) : List Char → Bool
  | [] => false
  | [_] => false
  | x :: y :: rest =>
    (decide (x = c1) && decide (y = c2)) || hasSep c1 c2 (y :: rest)

/-- The decimal digit character for `n < 10` (models `fmt` digit output). -/
def digitCh (n : Nat) : Char := Char.ofNat (48 + n)

/-- ASCII decimal digit test, as used by Go's `%d` scanning. -/
def isDigitCh (c : Char) : Bool := 48 ≤ c.toNat && c.toNat ≤ 57

/-- Whitespace skipped by Go's `fmt.Sscanf` before a `%d` verb. -/
def goSpace (c : Char) : Bool :=
  c = ' ' || c = '\t' || c = '\n' || c = '\x0b' || c = '\x0c' || c = '\r'

/-- Decimal digits of `n`, most significant first, produced by repeated
division as `fmt.Fprintf %d` does; `fuel` bounds the recursion and any
`fuel > n` is enough. -/
def goFormatNatAux : Nat → Nat → List Char
  | 0, _ => []
  | fuel + 1, n =>
    if n < 10 then [digitCh n]
    else goFormatNatAux fuel (n / 10) ++ [digitCh (n % 10)]

/-- Go `fmt` decimal rendering of a natural number. -/
def goFormatNat (n : Nat) : List Char := goFormatNatAux (n + 1) n

/-- Go `fmt.Fprintf`/`strconv` rendering of an `int64` with verb `%d`. -/
def goFormatInt : Int → List Char
  | Int.ofNat n => goFormatNat n
  | Int.negSucc n => '-' :: goFormatNat (n + 1)

/-- Read a leading run of decimal digits; `none` when there is no digit
(Go's `%d` fails in that case and leaves the target variable untouched). -/
def scanNatLead (s : List Char) : Option Nat :=
  let ds := s.takeWhile isDigitCh
  if ds = [] then none
  else some (ds.foldl (fun a c => a * 10 + (c.toNat - 48)) 0)

/-- Models `fmt.Sscanf(s, "%d", &x)` for an `int64` target: skip leading
space, optional sign, then at least one decimal digit; trailing input is
ignored. `none` means the scan failed and `x` keeps its old value. -/
def scanInt (s : List Char) : Option Int :=
  let s1 := s.dropWhile goSpace
  if s1.head? = some '-' then (scanNatLead s1.tail).map (fun n => -(n : Int))
  else if s1.head? = some '+' then (scanNatLead s1.tail).map (fun n => (n : Int))
  else (scanNatLead s1).map (fun n => (n : Int))

/-- The `FileInfo` struct of `ipfs/main.go`: filename, CID, size (int64)
and MIME type of one ingested file. -/
structure FileInfo where
  filename : List Char
  cid : List Char
  size : Int
  type : List Char
  deriving DecidableEq, Repr

/-- One iteration of the field-assignment loop in `getFileInfosHandler`
(main.go lines 78–93): split the part at the first `": "`, and when the key
is one of the four known names assign the value into the record being built. -/
def applyPart (fi : FileInfo) (part : List Char) : FileInfo :=
  match splitSep2 ':' ' ' part with
  | [k, v] =>
    if k = strL "Filename" then { fi with filename := v }
    else if k = strL "CID" then { fi with cid := v }
    else if k = strL "Size" then
      match scanInt v with
      | some n => { fi with size := n }
      | none => fi
    else if k = strL "Type" then { fi with type := v }
    else fi
  | _ => fi

/-- Parsing of one ledger line by `getFileInfosHandler` (main.go lines
68–102): split at `", "`; a line with other than four parts is skipped
(`none`); otherwise the four parts are folded over the zero-valued record. -/
def parseLine (line : List Char) : Option FileInfo :=
  let parts := splitSep ',' ' ' line
  if parts.length ≠ 4 then none
  else some (parts.foldl applyPart ⟨[], [], 0, []⟩)

/-- The `fileInfos` slice variable of `getFileInfosHandler`: `none` is Go's
nil slice (before any `append`), `some l` a non-nil slice with elements `l`. -/
def scanLedger (lines : List (List Char)) : Option (List FileInfo) :=
  lines.foldl
    (fun acc line =>
      match parseLine line with
      | some fi => some (acc.getD [] ++ [fi])
      | none => acc)
    none

/-- The record sequence served by GET /files (the Metadata Ledger's
`ListAll`): every well-formed line of the ledger file, in file order. -/
def ListAll (lines : List (List Char)) : List FileInfo :=
  (scanLedger lines).getD []

/-- The ledger line written by `logFileInfo` (main.go line 123):
`"Filename: %s, CID: %s, Size: %d bytes, Type: %s"` (the trailing newline is
the line terminator and is not part of the line). -/
def serializeRecord (r : FileInfo) : List Char :=
  strL "Filename: " ++ r.filename ++ strL ", CID: " ++ r.cid ++
    strL ", Size: " ++ goFormatInt r.size ++ strL " bytes, Type: " ++ r.type

/-- A field value that survives the line format: it contains no `", "`
separator and no line-break character. -/
def validField (s : List Char) : Bool :=
  !hasSep ',' ' ' s && s.all (fun c => c != '\n' && c != '\r')

/-- A valid `FileRecord` in the sense of spec §8 P1: each textual field
survives one-line serialization. -/
def ValidRecord (r : FileInfo) : Prop :=
  validField r.filename = true ∧ validField r.cid = true ∧ validField r.type = true

instance (r : FileInfo) : Decidable (ValidRecord r) := by
  unfold ValidRecord; infer_instance


/-- Hex digit used in `\u00XX` escapes of `encoding/json`. -/
def hexCh (n : Nat) : Char := if n < 10 then digitCh n else Char.ofNat (97 + n - 10)

/-- Per-character escaping of `encoding/json` string encoding with its
default HTML escaping (quotes, backslash, HTML characters, control bytes). -/
def jsonEscape (c : Char) : List Char :=
  if c = '"' then ['\\', '"']
  else if c = '\\' then ['\\', '\\']
  else if c = '<' then strL "\\u003c"
  else if c = '>' then strL "\\u003e"
  else if c = '&' then strL "\\u0026"
  else if c = '\n' then ['\\', 'n']
  else if c = '\r' then ['\\', 'r']
  else if c = '\t' then ['\\', 't']
  else if c.toNat < 32 then strL "\\u00" ++ [hexCh (c.toNat / 16), hexCh (c.toNat % 16)]
  else [c]

/-- `encoding/json` encoding of a Go string value. -/
def jsonStr (s : List Char) : List Char :=
  '"' :: (s.map jsonEscape).flatten ++ ['"']

/-- `encoding/json` encoding of one `FileInfo` value, with the json tags of
the struct declaration (main.go lines 20–25). -/
def jsonRecord (r : FileInfo) : List Char :=
  '\x7b' :: (strL "\"filename\":" ++ jsonStr r.filename ++
    strL ",\"cid\":" ++ jsonStr r.cid ++
    strL ",\"size\":" ++ goFormatInt r.size ++
    strL ",\"type\":" ++ jsonStr r.type) ++ ['\x7d']

/-- Comma-join of encoded array elements. -/
def joinComma : List (List Char) → List Char
  | [] => []
  | [x] => x
  | x :: y :: rest => x ++ ',' :: joinComma (y :: rest)

/-- `encoding/json` encoding of the `fileInfos` slice: a nil slice encodes
to `null`, a non-nil slice to a JSON array. -/
def jsonEncodeSlice : Option (List FileInfo) → List Char
  | none => strL "null"
  | some l => '[' :: joinComma (l.map jsonRecord) ++ [']']

/-- GET /files (`getFileInfosHandler`, main.go lines 57–114) as a function of
whether the ledger file opens and its list of lines, returning HTTP status
and response body.  `json.NewEncoder(w).Encode` terminates the body with a
newline; `http.Error` does too. -/
def getFileInfosHandlerModel (openOk : Bool) (lines : List (List Char)) :
    Nat × List Char :=
  if openOk = false then (500, strL "Could not open the file" ++ ['\n'])
  else (200, jsonEncodeSlice (scanLedger lines) ++ ['\n'])

/-! ### Broadcast Hub (`broadcastFiles`, `clients` registry) -/

/-- State of the Broadcast Hub: the `clients` registry, each live connection
carried as its handle (a `Nat` id) together with the messages written to it
so far, plus the ids whose transport has been closed by the hub. -/
structure HubState where
  clients : List (Nat × List FileInfo)
  closed : List Nat
  deriving DecidableEq, Repr

/-- One delivery round of `broadcastFiles` (main.go lines 231–240) for event
`e`: every registered connection is written to; `ok i e` tells whether
`conn.WriteJSON` succeeds for connection `i`.  A successful write appends the
event to that connection's message stream; a failed write closes the
connection and deletes it from the registry. -/
def sendAll (ok : Nat → FileInfo → Bool) (s : HubState) (e : FileInfo) : HubState :=
  { clients := s.clients.filterMap
      (fun ci => if ok ci.1 e then some (ci.1, ci.2 ++ [e]) else none)
    closed := s.closed ++ (s.clients.filter (fun ci => !ok ci.1 e)).map Prod.fst }

/-- The delivery loop of `broadcastFiles`: one `sendAll` round per event
received from `broadcastChan`, strictly in channel order. -/
def broadcastFilesModel (ok : Nat → FileInfo → Bool) (s : HubState)
    (events : List FileInfo) : HubState :=
  events.foldl (sendAll ok) s

/-! ### Upload Pipeline (`uploadHandler`) -/

/-- One part of the multipart field `files`, together with the outcomes of
the fallible operations the handler performs on it: `openOk` is
`fileHeader.Open()` succeeding, `storeCid` is the CID when
`ipfsNode.AddFile` succeeds (`none` = store failure), `logOk` is
`logFileInfo` succeeding. -/
structure FilePart where
  filename : List Char
  size : Int
  contentType : List Char
  openOk : Bool
  storeCid : Option (List Char)
  logOk : Bool
  deriving DecidableEq, Repr

/-- The `FileInfo` built by `uploadHandler` for a part stored under CID `c`. -/
def partRecord (p : FilePart) (c : List Char) : FileInfo :=
  ⟨p.filename, c, p.size, p.contentType⟩

/-- Observable outcome of one POST /upload request: HTTP status, the records
appended to the ledger, the events sent on `broadcastChan`, the CIDs stored
in the content store, and the JSON-encoded record list (meaningful on 200). -/
structure UploadOutcome where
  status : Nat
  ledger : List FileInfo
  events : List FileInfo
  stored : List (List Char)
  response : List FileInfo
  deriving DecidableEq, Repr

/-- The per-file loop of `uploadHandler` (main.go lines 144–193), carrying
the `fileInfos` slice and the side effects so far.  Open failure → 400;
store failure → 500; log failure → 500 (the bytes are already stored); on
success the record is appended to the ledger and sent to the hub, strictly
sequentially. -/
def uploadLoop : List FilePart → List FileInfo → List FileInfo →
    List FileInfo → List (List Char) → UploadOutcome
  | [], fis, led, evs, st => ⟨200, led, evs, st, fis⟩
  | p :: rest, fis, led, evs, st =>
    if p.openOk = false then ⟨400, led, evs, st, []⟩
    else
      match p.storeCid with
      | none => ⟨500, led, evs, st, []⟩
      | some c =>
        if p.logOk = false then ⟨500, led, evs, st ++ [c], []⟩
        else uploadLoop rest (fis ++ [partRecord p c]) (led ++ [partRecord p c])
          (evs ++ [partRecord p c]) (st ++ [c])

/-- POST /upload (`uploadHandler`, main.go lines 127–200): 400 when the
multipart form does not parse; 400 when `r.MultipartForm.File["files"]` is
nil (no part under the field name `files`); otherwise the sequential
per-file loop. -/
def uploadHandlerModel (parseOk : Bool) (files : List FilePart) : UploadOutcome :=
  if parseOk = false then ⟨400, [], [], [], []⟩
  else if files = [] then ⟨400, [], [], [], []⟩
  else uploadLoop files [] [] [] []

/-! ### Peer Bootstrap (`Peer.Bootstrap`) -/

/-- The receive loop of `Peer.Bootstrap`: each concurrently-dialed peer
whose `Connect` succeeds sends one token on the `connected` channel; the
loop counts tokens until the channel closes.  `arrivals` is the per-peer
success flag in goroutine completion order. -/
def countReceives (arrivals : List Bool) : Nat :=
  arrivals.foldl (fun i b => if b then i + 1 else i) 0

/-- Result of `Peer.Bootstrap` (part_002 lines 200–237): the number of
bootstrap peers connected and whether the degraded-connectivity warning
`i < nPeers/2` was logged.  The routine has no other outcome: it returns
normally for every input. -/
def peerBootstrapModel (peers arrivals : List Bool) : Nat × Bool :=
  let i := countReceives arrivals
  (i, decide (i < peers.length / 2))


/-! ### Helper lemmas: separators and splitting -/

theorem hasSep_of_all_ne (c1 c2 : Char) :
    ∀ s : List Char, (∀ c ∈ s, c ≠ c1) → hasSep c1 c2 s = false
  | [], _ => rfl
  | [_], _ => rfl
  | x :: y :: rest, h => by
    have hx : x ≠ c1 := h x (by simp)
    have ih := hasSep_of_all_ne c1 c2 (y :: rest) (fun c hc => h c (by simp at hc ⊢; tauto))
    simp [hasSep, hx, ih]

theorem hasSep_append (c1 c2 : Char) :
    ∀ a b : List Char, hasSep c1 c2 a = false → hasSep c1 c2 b = false →
      (a.getLast? ≠ some c1 ∨ b.head? ≠ some c2) → hasSep c1 c2 (a ++ b) = false
  | [], b, _, hb, _ => hb
  | [x], b, _, hb, hbd => by
    cases b with
    | nil => rfl
    | cons z bs =>
      simp only [List.getLast?_singleton, List.head?_cons] at hbd
      have hxz : x ≠ c1 ∨ z ≠ c2 := by
        rcases hbd with h | h
        · exact Or.inl (fun he => h (by rw [he]))
        · exact Or.inr (fun he => h (by rw [he]))
      simp only [List.singleton_append, hasSep, hb, Bool.or_false]
      rcases hxz with h | h <;> simp [h]
  | x :: y :: rest, b, ha, hb, hbd => by
    simp only [hasSep, Bool.or_eq_false_iff, Bool.and_eq_false_iff] at ha
    have ih := hasSep_append c1 c2 (y :: rest) b ha.2 hb
      (by rwa [List.getLast?_cons_cons] at hbd)
    simp only [List.cons_append, hasSep]
    rw [List.cons_append] at ih
    rcases ha.1 with h1 | h1 <;> simp at h1 <;> simp [ih, h1]

theorem splitSep_eq_single (c1 c2 : Char) :
    ∀ a : List Char, hasSep c1 c2 a = false → splitSep c1 c2 a = [a]
  | [], _ => rfl
  | [_], _ => rfl
  | x :: y :: rest, h => by
    simp only [hasSep, Bool.or_eq_false_iff, Bool.and_eq_false_iff] at h
    have ih := splitSep_eq_single c1 c2 (y :: rest) h.2
    have hcond : ¬(x = c1 ∧ y = c2) := by
      rcases h.1 with h1 | h1 <;> simp at h1 <;> tauto
    simp [splitSep, hcond, ih, consHead]

theorem splitSep_append_sep (c1 c2 : Char) (hne : c1 ≠ c2) :
    ∀ a b : List Char, hasSep c1 c2 a = false →
      splitSep c1 c2 (a ++ c1 :: c2 :: b) = a :: splitSep c1 c2 b
  | [], b, _ => by simp [splitSep]
  | [x], b, _ => by
    have hcond : ¬(x = c1 ∧ c1 = c2) := fun h => hne h.2
    simp [splitSep, hcond, consHead]
  | x :: y :: rest, b, ha => by
    simp only [hasSep, Bool.or_eq_false_iff, Bool.and_eq_false_iff] at ha
    have ih := splitSep_append_sep c1 c2 hne (y :: rest) b ha.2
    have hcond : ¬(x = c1 ∧ y = c2) := by
      rcases ha.1 with h1 | h1 <;> simp at h1 <;> tauto
    simp only [List.cons_append, splitSep, hcond, if_false]
    rw [List.cons_append] at ih
    simp [ih, consHead]

theorem splitSep2_append_sep (c1 c2 : Char) (hne : c1 ≠ c2) :
    ∀ a b : List Char, hasSep c1 c2 a = false →
      splitSep2 c1 c2 (a ++ c1 :: c2 :: b) = [a, b]
  | [], b, _ => by simp [splitSep2]
  | [x], b, _ => by
    have hcond : ¬(x = c1 ∧ c1 = c2) := fun h => hne h.2
    simp [splitSep2, hcond, consHead]
  | x :: y :: rest, b, ha => by
    simp only [hasSep, Bool.or_eq_false_iff, Bool.and_eq_false_iff] at ha
    have ih := splitSep2_append_sep c1 c2 hne (y :: rest) b ha.2
    have hcond : ¬(x = c1 ∧ y = c2) := by
      rcases ha.1 with h1 | h1 <;> simp at h1 <;> tauto
    simp only [List.cons_append, splitSep2, hcond, if_false]
    rw [List.cons_append] at ih
    simp [ih, consHead]

/-! ### Helper lemmas: decimal formatting and scanning -/

theorem digitCh_isDigit (n : Nat) (h : n < 10) : isDigitCh (digitCh n) = true := by
  interval_cases n <;> decide

theorem digitCh_val (n : Nat) (h : n < 10) : (digitCh n).toNat - 48 = n := by
  interval_cases n <;> decide

theorem goFormatNatAux_digits :
    ∀ (fuel n : Nat), ∀ c ∈ goFormatNatAux fuel n, isDigitCh c = true := by
  intro fuel
  induction fuel with
  | zero => intro n c hc; simp [goFormatNatAux] at hc
  | succ fuel ih =>
    intro n c hc
    by_cases h : n < 10
    · simp [goFormatNatAux, h] at hc
      rw [hc]; exact digitCh_isDigit n h
    · simp only [goFormatNatAux, if_neg h, List.mem_append, List.mem_singleton] at hc
      rcases hc with hc | hc
      · exact ih (n / 10) c hc
      · rw [hc]; exact digitCh_isDigit (n % 10) (Nat.mod_lt n (by norm_num))

theorem goFormatNatAux_ne_nil (fuel n : Nat) (h : 0 < fuel) :
    goFormatNatAux fuel n ≠ [] := by
  cases fuel with
  | zero => omega
  | succ fuel =>
    by_cases h10 : n < 10 <;> simp [goFormatNatAux, h10]

theorem goFormatNatAux_foldl :
    ∀ (fuel n : Nat), n < fuel →
      (goFormatNatAux fuel n).foldl (fun a c => a * 10 + (c.toNat - 48)) 0 = n := by
  intro fuel
  induction fuel with
  | zero => intro n h; omega
  | succ fuel ih =>
    intro n h
    by_cases h10 : n < 10
    · simp only [goFormatNatAux, if_pos h10, List.foldl_cons, List.foldl_nil]
      rw [digitCh_val n h10]
      omega
    · have hdiv : n / 10 < n := Nat.div_lt_self (by omega) (by norm_num)
      have hfuel : n / 10 < fuel := by omega
      simp only [goFormatNatAux, if_neg h10, List.foldl_append, List.foldl_cons,
        List.foldl_nil]
      rw [ih (n / 10) hfuel, digitCh_val (n % 10) (Nat.mod_lt n (by omega))]
      omega

theorem takeWhile_all_append {α : Type} {p : α → Bool} :
    ∀ a b : List α, (∀ c ∈ a, p c = true) → (a ++ b).takeWhile p = a ++ b.takeWhile p
  | [], _, _ => by simp
  | x :: a, b, h => by
    have hx : p x = true := h x (by simp)
    have ih := takeWhile_all_append a b (fun c hc => h c (by simp [hc]))
    simp [List.takeWhile_cons, hx, ih]

theorem scanNatLead_format (n : Nat) (rest : List Char)
    (hrest : rest.takeWhile isDigitCh = []) :
    scanNatLead (goFormatNat n ++ rest) = some n := by
  have hall := goFormatNatAux_digits (n + 1) n
  have htw : (goFormatNat n ++ rest).takeWhile isDigitCh = goFormatNat n := by
    rw [goFormatNat, takeWhile_all_append _ _ hall, hrest, List.append_nil]
  have hne : goFormatNat n ≠ [] := goFormatNatAux_ne_nil (n + 1) n (by omega)
  rw [scanNatLead]
  simp only [htw, if_neg hne]
  rw [goFormatNat, goFormatNatAux_foldl (n + 1) n (by omega)]

theorem isDigitCh_not_goSpace (c : Char) (h : isDigitCh c = true) : goSpace c = false := by
  by_contra hs
  simp only [Bool.not_eq_false, goSpace, Bool.or_eq_true, decide_eq_true_eq] at hs
  rcases hs with ((((h1 | h1) | h1) | h1) | h1) | h1 <;> subst h1 <;> exact absurd h (by decide)

theorem isDigitCh_ne_dash (c : Char) (h : isDigitCh c = true) : c ≠ '-' := by
  intro he; subst he; exact absurd h (by decide)

theorem isDigitCh_ne_plus (c : Char) (h : isDigitCh c = true) : c ≠ '+' := by
  intro he; subst he; exact absurd h (by decide)

theorem scanInt_format (i : Int) (rest : List Char)
    (hrest : rest.takeWhile isDigitCh = []) :
    scanInt (goFormatInt i ++ rest) = some i := by
  cases i with
  | ofNat n =>
    obtain ⟨d, ds, hds⟩ := List.exists_cons_of_ne_nil
      (goFormatNatAux_ne_nil (n + 1) n (by omega) : goFormatNat n ≠ [])
    have hd : isDigitCh d = true := by
      apply goFormatNatAux_digits (n + 1) n
      rw [hds]; simp
    have hform : goFormatInt (Int.ofNat n) = d :: ds := by
      rw [goFormatInt]; exact hds
    rw [scanInt, hform]
    simp only [List.cons_append]
    rw [List.dropWhile_cons_of_neg (by simp [isDigitCh_not_goSpace d hd])]
    rw [if_neg (by simp [isDigitCh_ne_dash d hd]), if_neg (by simp [isDigitCh_ne_plus d hd])]
    rw [← List.cons_append, ← hds, ← goFormatNat, scanNatLead_format n rest hrest]
    rfl
  | negSucc m =>
    rw [scanInt, goFormatInt]
    simp only [List.cons_append]
    rw [List.dropWhile_cons_of_neg (by simp [goSpace])]
    rw [if_pos (by simp)]
    simp only [List.tail_cons]
    rw [scanNatLead_format (m + 1) rest hrest]
    simp [Int.negSucc_eq]

/-! ### Helper lemmas: the serialize/parse round trip -/

theorem validField_no_sep {s : List Char} (h : validField s = true) :
    hasSep ',' ' ' s = false := by
  simp only [validField, Bool.and_eq_true, Bool.not_eq_true'] at h
  exact h.1

theorem isDigitCh_ne_comma (c : Char) (h : isDigitCh c = true) : c ≠ ',' := by
  intro he; subst he; exact absurd h (by decide)

theorem goFormatInt_ne_comma (i : Int) : ∀ c ∈ goFormatInt i, c ≠ ',' := by
  cases i with
  | ofNat n =>
    intro c hc
    exact isDigitCh_ne_comma c (goFormatNatAux_digits (n + 1) n c hc)
  | negSucc m =>
    intro c hc
    rw [goFormatInt, List.mem_cons] at hc
    rcases hc with hc | hc
    · subst hc; decide
    · exact isDigitCh_ne_comma c (goFormatNatAux_digits (m + 2) (m + 1) c hc)

theorem ne_getLast?_of_all {α : Type} {p : α} :
    ∀ l : List α, (∀ c ∈ l, c ≠ p) → l.getLast? ≠ some p
  | [], _ => by simp
  | [x], h => by simp [h x (by simp)]
  | x :: y :: rest, h => by
    rw [List.getLast?_cons_cons]
    exact ne_getLast?_of_all (y :: rest) (fun c hc => h c (by simp at hc ⊢; tauto))

theorem applyPart_filename (fi : FileInfo) (v : List Char) :
    applyPart fi (strL "Filename: " ++ v) = { fi with filename := v } := by
  have hsp : splitSep2 ':' ' ' (strL "Filename: " ++ v) = [strL "Filename", v] :=
    splitSep2_append_sep ':' ' ' (by decide) (strL "Filename") v (by decide)
  simp [applyPart, hsp]

theorem applyPart_cid (fi : FileInfo) (v : List Char) :
    applyPart fi (strL "CID: " ++ v) = { fi with cid := v } := by
  have hsp : splitSep2 ':' ' ' (strL "CID: " ++ v) = [strL "CID", v] :=
    splitSep2_append_sep ':' ' ' (by decide) (strL "CID") v (by decide)
  have hne1 : strL "CID" ≠ strL "Filename" := by decide
  simp [applyPart, hsp, hne1]

theorem applyPart_size (fi : FileInfo) (i : Int) :
    applyPart fi (strL "Size: " ++ (goFormatInt i ++ strL " bytes"))
      = { fi with size := i } := by
  have hsp : splitSep2 ':' ' ' (strL "Size: " ++ (goFormatInt i ++ strL " bytes"))
      = [strL "Size", goFormatInt i ++ strL " bytes"] :=
    splitSep2_append_sep ':' ' ' (by decide) (strL "Size") _ (by decide)
  have hne1 : strL "Size" ≠ strL "Filename" := by decide
  have hne2 : strL "Size" ≠ strL "CID" := by decide
  have hscan := scanInt_format i (strL " bytes") (by decide)
  simp [applyPart, hsp, hne1, hne2, hscan]

theorem applyPart_type (fi : FileInfo) (v : List Char) :
    applyPart fi (strL "Type: " ++ v) = { fi with type := v } := by
  have hsp : splitSep2 ':' ' ' (strL "Type: " ++ v) = [strL "Type", v] :=
    splitSep2_append_sep ':' ' ' (by decide) (strL "Type") v (by decide)
  have hne1 : strL "Type" ≠ strL "Filename" := by decide
  have hne2 : strL "Type" ≠ strL "CID" := by decide
  have hne3 : strL "Type" ≠ strL "Size" := by decide
  simp [applyPart, hsp, hne1, hne2, hne3]

theorem parseLine_serialize (r : FileInfo) (hr : ValidRecord r) :
    parseLine (serializeRecord r) = some r := by
  obtain ⟨f, c, i, t⟩ := r
  obtain ⟨h1, h2, h3⟩ := hr
  have hf := validField_no_sep h1
  have hc := validField_no_sep h2
  have ht := validField_no_sep h3
  have hA1 : hasSep ',' ' ' (strL "Filename: " ++ f) = false :=
    hasSep_append ',' ' ' (strL "Filename: ") f (by decide) hf (Or.inl (by decide))
  have hA2 : hasSep ',' ' ' (strL "CID: " ++ c) = false :=
    hasSep_append ',' ' ' (strL "CID: ") c (by decide) hc (Or.inl (by decide))
  have hdig : hasSep ',' ' ' (goFormatInt i) = false :=
    hasSep_of_all_ne ',' ' ' _ (goFormatInt_ne_comma i)
  have hin : hasSep ',' ' ' (goFormatInt i ++ strL " bytes") = false :=
    hasSep_append ',' ' ' _ _ hdig (by decide)
      (Or.inl (ne_getLast?_of_all _ (goFormatInt_ne_comma i)))
  have hA3 : hasSep ',' ' ' (strL "Size: " ++ (goFormatInt i ++ strL " bytes")) = false :=
    hasSep_append ',' ' ' (strL "Size: ") _ (by decide) hin (Or.inl (by decide))
  have hA4 : hasSep ',' ' ' (strL "Type: " ++ t) = false :=
    hasSep_append ',' ' ' (strL "Type: ") t (by decide) ht (Or.inl (by decide))
  have hsplit : serializeRecord ⟨f, c, i, t⟩ =
      (strL "Filename: " ++ f) ++ ',' :: ' ' ::
        ((strL "CID: " ++ c) ++ ',' :: ' ' ::
          ((strL "Size: " ++ (goFormatInt i ++ strL " bytes")) ++ ',' :: ' ' ::
            (strL "Type: " ++ t))) := by
    have eC : strL ", CID: " = ',' :: ' ' :: strL "CID: " := by decide
    have eS : strL ", Size: " = ',' :: ' ' :: strL "Size: " := by decide
    have eB : strL " bytes, Type: " = strL " bytes" ++ ',' :: ' ' :: strL "Type: " := by decide
    simp only [serializeRecord, eC, eS, eB, List.append_assoc, List.cons_append]
  have hparts : splitSep ',' ' ' (serializeRecord ⟨f, c, i, t⟩) =
      [strL "Filename: " ++ f, strL "CID: " ++ c,
        strL "Size: " ++ (goFormatInt i ++ strL " bytes"), strL "Type: " ++ t] := by
    rw [hsplit, splitSep_append_sep ',' ' ' (by decide) _ _ hA1,
      splitSep_append_sep ',' ' ' (by decide) _ _ hA2,
      splitSep_append_sep ',' ' ' (by decide) _ _ hA3,
      splitSep_eq_single ',' ' ' _ hA4]
  simp only [parseLine, hparts, List.length_cons, List.length_nil]
  norm_num
  simp only [List.foldl_cons, List.foldl_nil, applyPart_filename, applyPart_cid,
    applyPart_size, applyPart_type]

theorem scanLedger_foldl_getD :
    ∀ (lines : List (List Char)) (acc : Option (List FileInfo)),
      (lines.foldl
        (fun acc line =>
          match parseLine line with
          | some fi => some (acc.getD [] ++ [fi])
          | none => acc)
        acc).getD []
      = acc.getD [] ++ lines.filterMap parseLine := by
  intro lines
  induction lines with
  | nil => intro acc; simp
  | cons l ls ih =>
    intro acc
    cases h : parseLine l with
    | none => simp [List.foldl_cons, h, ih]
    | some fi => simp [List.foldl_cons, h, ih]

theorem ListAll_eq_filterMap (lines : List (List Char)) :
    ListAll lines = lines.filterMap parseLine := by
  have h := scanLedger_foldl_getD lines none
  simpa [ListAll, scanLedger] using h

/-! ### Helper lemmas: broadcast hub -/

theorem mem_sendAll_of_ok (ok : Nat → FileInfo → Bool) (s : HubState) (e : FileInfo)
    (i : Nat) (m : List FileInfo) (hmem : (i, m) ∈ s.clients) (hok : ok i e = true) :
    (i, m ++ [e]) ∈ (sendAll ok s e).clients := by
  simp only [sendAll, List.mem_filterMap]
  exact ⟨(i, m), hmem, by simp [hok]⟩

theorem fst_not_mem_sendAll (ok : Nat → FileInfo → Bool) (s : HubState) (e : FileInfo)
    (i : Nat) (h : i ∉ s.clients.map Prod.fst) :
    i ∉ (sendAll ok s e).clients.map Prod.fst := by
  intro hmem
  apply h
  simp only [sendAll, List.mem_map, List.mem_filterMap] at hmem
  obtain ⟨b, ⟨a, ha, hfa⟩, hb⟩ := hmem
  split at hfa
  · obtain rfl := Option.some.inj hfa
    exact List.mem_map.mpr ⟨a, ha, hb⟩
  · exact absurd hfa (by simp)

theorem fst_not_mem_sendAll_of_fail (ok : Nat → FileInfo → Bool) (s : HubState)
    (e : FileInfo) (i : Nat) (hfail : ok i e = false) :
    i ∉ (sendAll ok s e).clients.map Prod.fst := by
  intro hmem
  simp only [sendAll, List.mem_map, List.mem_filterMap] at hmem
  obtain ⟨b, ⟨a, ha, hfa⟩, hb⟩ := hmem
  split at hfa
  · obtain rfl := Option.some.inj hfa
    simp only at hb
    rename_i hok
    rw [hb] at hok
    rw [hfail] at hok
    exact absurd hok (by simp)
  · exact absurd hfa (by simp)

theorem fst_mem_closed_sendAll (ok : Nat → FileInfo → Bool) (s : HubState) (e : FileInfo)
    (i : Nat) (m : List FileInfo) (hmem : (i, m) ∈ s.clients) (hfail : ok i e = false) :
    i ∈ (sendAll ok s e).closed := by
  simp only [sendAll, List.mem_append, List.mem_map]
  right
  exact ⟨(i, m), List.mem_filter.mpr ⟨hmem, by simp [hfail]⟩, rfl⟩

theorem fst_not_mem_broadcast (ok : Nat → FileInfo → Bool) (events : List FileInfo) :
    ∀ (s : HubState) (i : Nat), i ∉ s.clients.map Prod.fst →
      i ∉ (broadcastFilesModel ok s events).clients.map Prod.fst := by
  induction events with
  | nil => intro s i h; exact h
  | cons e evs ih =>
    intro s i h
    exact ih (sendAll ok s e) i (fst_not_mem_sendAll ok s e i h)

/-! ### Helper lemmas: upload loop, filterMap, counting -/

theorem uploadLoop_all_ok :
    ∀ (pre rest : List FilePart) (fis led evs : List FileInfo) (st : List (List Char)),
      (∀ p ∈ pre, p.openOk = true ∧ p.logOk = true ∧ p.storeCid.isSome = true) →
      uploadLoop (pre ++ rest) fis led evs st =
        uploadLoop rest
          (fis ++ pre.map (fun p => partRecord p (p.storeCid.getD [])))
          (led ++ pre.map (fun p => partRecord p (p.storeCid.getD [])))
          (evs ++ pre.map (fun p => partRecord p (p.storeCid.getD [])))
          (st ++ pre.map (fun p => p.storeCid.getD []))
  | [], rest, fis, led, evs, st, _ => by simp
  | p :: pre, rest, fis, led, evs, st, h => by
    obtain ⟨hopen, hlog, hsome⟩ := h p (by simp)
    obtain ⟨c, hc⟩ := Option.isSome_iff_exists.mp hsome
    have ih := uploadLoop_all_ok pre rest (fis ++ [partRecord p c])
      (led ++ [partRecord p c]) (evs ++ [partRecord p c]) (st ++ [c])
      (fun q hq => h q (by simp [hq]))
    simp only [List.cons_append, uploadLoop, hopen, hlog, hc, Bool.true_eq_false,
      if_false, List.append_eq]
    rw [ih]
    simp [hc, List.append_assoc]

theorem length_filterMap_of_isSome {α β : Type} (f : α → Option β) :
    ∀ l : List α, (∀ x ∈ l, (f x).isSome = true) → (l.filterMap f).length = l.length
  | [], _ => rfl
  | x :: l, h => by
    obtain ⟨b, hb⟩ := Option.isSome_iff_exists.mp (h x (by simp))
    have ih := length_filterMap_of_isSome f l (fun y hy => h y (by simp [hy]))
    simp [List.filterMap_cons, hb, ih]

theorem foldl_count (l : List Bool) :
    ∀ n : Nat, l.foldl (fun i b => if b then i + 1 else i) n
      = n + (l.filter (fun b => b)).length := by
  induction l with
  | nil => intro n; simp
  | cons b bs ih =>
    intro n
    cases b
    · simpa using ih n
    · simp only [List.foldl_cons, if_true]
      rw [ih (n + 1)]
      have hf : (true :: bs).filter (fun b => b) = true :: bs.filter (fun b => b) := by simp
      rw [hf, List.length_cons]
      omega

/-! ### Claim theorems -/

/-- Claim C1: appending a valid FileRecord to the Metadata Ledger
(`logFileInfo`) and then reading it back (`ListAll`, as served by GET /files)
yields the previous sequence with that record at the end — its filename,
cid, size and type unchanged, at the position matching append order. -/
theorem c1_ledger_append_then_read (L : List (List Char)) (r : FileInfo)
    (hr : ValidRecord r) :
    ListAll (L ++ [serializeRecord r]) = ListAll L ++ [r] := by
  rw [ListAll_eq_filterMap, ListAll_eq_filterMap, List.filterMap_append]
  simp [parseLine_serialize r hr]

/-- Witness for C1 at a concrete ledger and record. -/
theorem c1_ledger_append_then_read_witness :
    ValidRecord ⟨strL "report.txt", strL "QmAbc", 1234, strL "text/plain"⟩ ∧
    ListAll ([strL "junk"] ++
        [serializeRecord ⟨strL "report.txt", strL "QmAbc", 1234, strL "text/plain"⟩])
      = ListAll [strL "junk"] ++ [⟨strL "report.txt", strL "QmAbc", 1234, strL "text/plain"⟩] :=
  ⟨by decide, c1_ledger_append_then_read [strL "junk"] _ (by decide)⟩

/-- Claim C2: every registered observer for which the send succeeds receives
each published event exactly once, appended to its message stream in the
exact order the events were published (`broadcastFiles` delivery loop). -/
theorem c2_broadcast_fanout_order (ok : Nat → FileInfo → Bool) (s : HubState)
    (events : List FileInfo) (i : Nat) (msgs : List FileInfo)
    (hmem : (i, msgs) ∈ s.clients) (hok : ∀ e ∈ events, ok i e = true) :
    (i, msgs ++ events) ∈ (broadcastFilesModel ok s events).clients := by
  induction events generalizing s msgs with
  | nil => simpa using hmem
  | cons e evs ih =>
    have h1 := mem_sendAll_of_ok ok s e i msgs hmem (hok e (by simp))
    have h2 := ih (sendAll ok s e) (msgs ++ [e]) h1 (fun e' he' => hok e' (by simp [he']))
    simpa [broadcastFilesModel, List.foldl_cons, List.append_assoc] using h2

/-- Witness for C2: one observer, two published events, delivered in order. -/
theorem c2_broadcast_fanout_order_witness :
    ((1, ([] : List FileInfo)) ∈ (HubState.mk [(1, [])] []).clients) ∧
    (1, ([] : List FileInfo) ++
        [⟨strL "a", strL "c1", 1, strL "t"⟩, ⟨strL "b", strL "c2", 2, strL "t"⟩]) ∈
      (broadcastFilesModel (fun _ _ => true) (HubState.mk [(1, [])] [])
        [⟨strL "a", strL "c1", 1, strL "t"⟩, ⟨strL "b", strL "c2", 2, strL "t"⟩]).clients :=
  ⟨by decide,
    c2_broadcast_fanout_order (fun _ _ => true) (HubState.mk [(1, [])] [])
      [⟨strL "a", strL "c1", 1, strL "t"⟩, ⟨strL "b", strL "c2", 2, strL "t"⟩] 1 []
      (by decide) (fun e _ => rfl)⟩

/-- Counterexample to claim C3: the line `"a, b, c, d"` carries none of the
four named fields (no `Filename`, `CID`, `Size` or `Type` key), yet reading a
ledger holding it produces a FileRecord (with zero-valued fields) instead of
skipping the line: the parser checks only that the line splits into four
`", "`-separated parts, not that the four named fields are present. -/
theorem c3_counterexample :
    ListAll [strL "a, b, c, d"] = [⟨[], [], 0, []⟩] := by decide

/-- Claim C3 as amended: a ledger line is skipped if and only if it does not
split into exactly four `", "`-separated parts; a four-part line always
produces a record, with empty/zero values for any named field not present. -/
theorem c3_amended_skip_iff (line : List Char) :
    parseLine line = none ↔ (splitSep ',' ' ' line).length ≠ 4 := by
  rw [parseLine]
  by_cases h : (splitSep ',' ' ' line).length ≠ 4 <;> simp [h]

/-- Counterexample to claim C4: a request whose first file part is fully
ingested and whose second part fails at `fileHeader.Open()` is answered with
status 400 (a 4xx), yet the first part's ledger append and broadcast event
remain — a 4xx response with side effects. -/
theorem c4_counterexample :
    (uploadHandlerModel true
        [⟨strL "a.txt", 1, strL "text/plain", true, some (strL "cidA"), true⟩,
         ⟨strL "b.txt", 2, strL "text/plain", false, none, true⟩]).status = 400 ∧
    (uploadHandlerModel true
        [⟨strL "a.txt", 1, strL "text/plain", true, some (strL "cidA"), true⟩,
         ⟨strL "b.txt", 2, strL "text/plain", false, none, true⟩]).ledger
      = [⟨strL "a.txt", strL "cidA", 1, strL "text/plain"⟩] ∧
    (uploadHandlerModel true
        [⟨strL "a.txt", 1, strL "text/plain", true, some (strL "cidA"), true⟩,
         ⟨strL "b.txt", 2, strL "text/plain", false, none, true⟩]).events
      = [⟨strL "a.txt", strL "cidA", 1, strL "text/plain"⟩] := by decide

/-- Claim C4 as amended: a 400 issued before any file part is processed —
unparsable multipart form, or no parts under the field name `files` — has no
side effects: nothing appended to the ledger, no event published, nothing
stored.  (A 400 from a part-open failure mid-request instead keeps the side
effects of the earlier parts, as the counterexample shows.) -/
theorem c4_amended_early_400_no_side_effects (parseOk : Bool) (files : List FilePart)
    (h : parseOk = false ∨ files = []) :
    (uploadHandlerModel parseOk files).status = 400 ∧
    (uploadHandlerModel parseOk files).ledger = [] ∧
    (uploadHandlerModel parseOk files).events = [] ∧
    (uploadHandlerModel parseOk files).stored = [] := by
  rcases h with h | h
  · subst h; simp [uploadHandlerModel]
  · subst h; cases parseOk <;> simp [uploadHandlerModel]

/-- Witness for the amended C4 at a concrete unparsable request. -/
theorem c4_amended_early_400_no_side_effects_witness :
    (false = false ∨ ([] : List FilePart) = []) ∧
    ((uploadHandlerModel false []).status = 400 ∧
      (uploadHandlerModel false []).ledger = [] ∧
      (uploadHandlerModel false []).events = [] ∧
      (uploadHandlerModel false []).stored = []) :=
  ⟨Or.inl rfl, c4_amended_early_400_no_side_effects false [] (Or.inl rfl)⟩

/-- A line that no FileRecord serializes to (supports the C5 counterexample:
the line is genuinely corrupted, not the image of any record). -/
theorem junk_line_not_serialized (r : FileInfo) :
    serializeRecord r ≠ strL "x, y, z, w" := by
  intro h
  have h1 : (serializeRecord r).head? = some 'F' := by
    have e : strL "Filename: " = 'F' :: strL "ilename: " := by decide
    rw [serializeRecord, e]
    simp
  rw [h] at h1
  exact absurd h1 (by decide)

/-- Counterexample to claim C5: a ledger holding one corrupted line
`"x, y, z, w"` (by `junk_line_not_serialized` it is not the serialization of
any record) and N = 0 valid lines yields one record, not exactly N = 0: a
corrupted line that happens to split into four `", "`-separated parts
contributes a zero-valued junk record instead of being skipped. -/
theorem c5_counterexample :
    ListAll [strL "x, y, z, w"] = [⟨[], [], 0, []⟩] := by decide

/-- Claim C5 as amended: reading a ledger with N valid lines and one
corrupted line yields exactly the N valid records — and never an error, the
read being a total function — provided the corrupted line does not split
into exactly four `", "`-separated parts; a four-part corrupted line instead
contributes one junk record. -/
theorem c5_amended_corrupt_line_skipped (pre post : List (List Char)) (bad : List Char)
    (hbad : (splitSep ',' ' ' bad).length ≠ 4)
    (hvalid : ∀ l ∈ pre ++ post, (parseLine l).isSome = true) :
    ListAll (pre ++ bad :: post) = ListAll (pre ++ post) ∧
    (ListAll (pre ++ bad :: post)).length = (pre ++ post).length := by
  have hnone : parseLine bad = none := by
    rw [parseLine, if_pos hbad]
  have h1 : ListAll (pre ++ bad :: post) = ListAll (pre ++ post) := by
    rw [ListAll_eq_filterMap, ListAll_eq_filterMap, List.filterMap_append,
      List.filterMap_append, List.filterMap_cons, hnone]
  refine ⟨h1, ?_⟩
  rw [h1, ListAll_eq_filterMap]
  exact length_filterMap_of_isSome parseLine (pre ++ post) hvalid

/-- Witness for the amended C5: one corrupted line between two valid lines. -/
theorem c5_amended_corrupt_line_skipped_witness :
    ((splitSep ',' ' ' (strL "garbage")).length ≠ 4) ∧
    (ListAll ([strL "Filename: a, CID: c1, Size: 1 bytes, Type: t"] ++
        strL "garbage" :: [strL "Filename: b, CID: c2, Size: 2 bytes, Type: t"])
      = ListAll ([strL "Filename: a, CID: c1, Size: 1 bytes, Type: t"] ++
        [strL "Filename: b, CID: c2, Size: 2 bytes, Type: t"]) ∧
      (ListAll ([strL "Filename: a, CID: c1, Size: 1 bytes, Type: t"] ++
        strL "garbage" :: [strL "Filename: b, CID: c2, Size: 2 bytes, Type: t"])).length
      = ([strL "Filename: a, CID: c1, Size: 1 bytes, Type: t"] ++
        [strL "Filename: b, CID: c2, Size: 2 bytes, Type: t"]).length) :=
  ⟨by decide,
    c5_amended_corrupt_line_skipped
      [strL "Filename: a, CID: c1, Size: 1 bytes, Type: t"]
      [strL "Filename: b, CID: c2, Size: 2 bytes, Type: t"]
      (strL "garbage") (by decide) (by decide)⟩

/-- Claim C6: when the Content Store call (`ipfsNode.AddFile`) fails for a
file of a multi-file upload whose earlier files all succeeded, the request is
answered with InternalError 500, the ledger entries and broadcast events of
the earlier files of the same request remain in place (no rollback), and no
ledger entry, event or stored CID is produced for the failing file or any
later file. -/
theorem c6_store_failure_keeps_earlier (pre rest : List FilePart) (pbad : FilePart)
    (hpre : ∀ p ∈ pre, p.openOk = true ∧ p.logOk = true ∧ p.storeCid.isSome = true)
    (hopen : pbad.openOk = true) (hstore : pbad.storeCid = none) :
    uploadHandlerModel true (pre ++ pbad :: rest) =
      ⟨500, pre.map (fun p => partRecord p (p.storeCid.getD [])),
        pre.map (fun p => partRecord p (p.storeCid.getD [])),
        pre.map (fun p => p.storeCid.getD []), []⟩ := by
  rw [uploadHandlerModel, if_neg (by simp), if_neg (by simp),
    uploadLoop_all_ok pre (pbad :: rest) [] [] [] [] hpre]
  simp only [List.nil_append, uploadLoop, hopen, hstore, Bool.true_eq_false, if_false]

/-- Witness for C6: one successful file, then a store failure, then one
further file that is never reached. -/
theorem c6_store_failure_keeps_earlier_witness :
    (⟨strL "b.txt", 2, strL "t", true, none, true⟩ : FilePart).openOk = true ∧
    uploadHandlerModel true
        ([⟨strL "a.txt", 1, strL "t", true, some (strL "cidA"), true⟩] ++
          (⟨strL "b.txt", 2, strL "t", true, none, true⟩ : FilePart) ::
            [⟨strL "c.txt", 3, strL "t", true, some (strL "cidC"), true⟩]) =
      ⟨500, ([⟨strL "a.txt", 1, strL "t", true, some (strL "cidA"), true⟩] : List FilePart).map
          (fun p => partRecord p (p.storeCid.getD [])),
        ([⟨strL "a.txt", 1, strL "t", true, some (strL "cidA"), true⟩] : List FilePart).map
          (fun p => partRecord p (p.storeCid.getD [])),
        ([⟨strL "a.txt", 1, strL "t", true, some (strL "cidA"), true⟩] : List FilePart).map
          (fun p => p.storeCid.getD []), []⟩ :=
  ⟨rfl, c6_store_failure_keeps_earlier
    [⟨strL "a.txt", 1, strL "t", true, some (strL "cidA"), true⟩]
    [⟨strL "c.txt", 3, strL "t", true, some (strL "cidC"), true⟩]
    ⟨strL "b.txt", 2, strL "t", true, none, true⟩ (by decide) rfl rfl⟩

/-- Claim C7: when delivery of a published event fails for one observer
connection, exactly that connection is closed and removed from the registry
(observers whose send succeeds stay, with the event delivered), and the
removed connection is absent from the registry after every later publish, so
it receives no further events. -/
theorem c7_send_failure_closes_connection (ok : Nat → FileInfo → Bool)
    (s : HubState) (e : FileInfo) (i : Nat) (m : List FileInfo)
    (events : List FileInfo)
    (hmem : (i, m) ∈ s.clients) (hfail : ok i e = false) :
    i ∈ (sendAll ok s e).closed ∧
    i ∉ (sendAll ok s e).clients.map Prod.fst ∧
    i ∉ (broadcastFilesModel ok (sendAll ok s e) events).clients.map Prod.fst ∧
    ∀ j mj, (j, mj) ∈ s.clients → ok j e = true →
      (j, mj ++ [e]) ∈ (sendAll ok s e).clients :=
  ⟨fst_mem_closed_sendAll ok s e i m hmem hfail,
    fst_not_mem_sendAll_of_fail ok s e i hfail,
    fst_not_mem_broadcast ok events (sendAll ok s e) i
      (fst_not_mem_sendAll_of_fail ok s e i hfail),
    fun j mj hj hok => mem_sendAll_of_ok ok s e j mj hj hok⟩

/-- Witness for C7: two observers, observer 2's transport is dead; one
publish prunes it, a later publish does not reach it, observer 1 keeps
receiving. -/
theorem c7_send_failure_closes_connection_witness :
    ((2, ([] : List FileInfo)) ∈ (HubState.mk [(1, []), (2, [])] []).clients) ∧
    (2 ∈ (sendAll (fun j _ => decide (j = 1)) (HubState.mk [(1, []), (2, [])] [])
        ⟨strL "a", strL "c1", 1, strL "t"⟩).closed ∧
      2 ∉ (sendAll (fun j _ => decide (j = 1)) (HubState.mk [(1, []), (2, [])] [])
        ⟨strL "a", strL "c1", 1, strL "t"⟩).clients.map Prod.fst ∧
      2 ∉ (broadcastFilesModel (fun j _ => decide (j = 1))
        (sendAll (fun j _ => decide (j = 1)) (HubState.mk [(1, []), (2, [])] [])
          ⟨strL "a", strL "c1", 1, strL "t"⟩)
        [⟨strL "b", strL "c2", 2, strL "t"⟩]).clients.map Prod.fst ∧
      ∀ j mj, (j, mj) ∈ (HubState.mk [(1, []), (2, [])] [] : HubState).clients →
        (fun j _ => decide (j = 1)) j (⟨strL "a", strL "c1", 1, strL "t"⟩ : FileInfo) = true →
        (j, mj ++ [⟨strL "a", strL "c1", 1, strL "t"⟩]) ∈
          (sendAll (fun j _ => decide (j = 1)) (HubState.mk [(1, []), (2, [])] [])
            ⟨strL "a", strL "c1", 1, strL "t"⟩).clients) :=
  ⟨by decide,
    c7_send_failure_closes_connection (fun j _ => decide (j = 1))
      (HubState.mk [(1, []), (2, [])] []) ⟨strL "a", strL "c1", 1, strL "t"⟩ 2 []
      [⟨strL "b", strL "c2", 2, strL "t"⟩] (by decide) (by decide)⟩

/-- Claim C8: after all concurrent bootstrap dial attempts finish — whatever
order they finish in — the number of `connected` tokens counted equals the
number of peers whose dial succeeded, and the degraded-connectivity warning
is logged if and only if that count is below half (integer division) of the
configured peer total.  The model is a total function: the routine returns
normally however many attempts failed. -/
theorem c8_bootstrap_warning_iff (peers arrivals : List Bool)
    (hperm : arrivals.Perm peers) :
    (peerBootstrapModel peers arrivals).1 = (peers.filter (fun b => b)).length ∧
    ((peerBootstrapModel peers arrivals).2 = true ↔
      (peers.filter (fun b => b)).length < peers.length / 2) := by
  have hcount : countReceives arrivals = (peers.filter (fun b => b)).length := by
    rw [countReceives, foldl_count arrivals 0, Nat.zero_add]
    exact (hperm.filter (fun b => b)).length_eq
  constructor
  · simp [peerBootstrapModel, hcount]
  · simp [peerBootstrapModel, hcount]

/-- Witness for C8: four peers, one reachable, goroutines finishing in a
different order than configured; 1 < 4/2 so the warning fires. -/
theorem c8_bootstrap_warning_iff_witness :
    ([false, false, true, false].Perm [true, false, false, false]) ∧
    ((peerBootstrapModel [true, false, false, false] [false, false, true, false]).1
        = ([true, false, false, false].filter (fun b => b)).length ∧
      ((peerBootstrapModel [true, false, false, false] [false, false, true, false]).2 = true ↔
        ([true, false, false, false].filter (fun b => b)).length
          < ([true, false, false, false] : List Bool).length / 2)) :=
  ⟨by decide, c8_bootstrap_warning_iff [true, false, false, false]
    [false, false, true, false] (by decide)⟩

/-- Claim C9: POST /upload answers 400 both when the multipart form cannot
be parsed and when zero parts are present under the field name `files`
(`r.MultipartForm.File["files"]` is nil), and in both cases nothing is
stored, nothing is appended to the ledger and no event is published. -/
theorem c9_bad_request_nothing_stored (parseOk : Bool) (files : List FilePart)
    (h : parseOk = false ∨ files = []) :
    uploadHandlerModel parseOk files = ⟨400, [], [], [], []⟩ := by
  rcases h with h | h
  · subst h
    rw [uploadHandlerModel, if_pos rfl]
  · subst h
    cases parseOk
    · rw [uploadHandlerModel, if_pos rfl]
    · rw [uploadHandlerModel, if_neg (by simp), if_pos rfl]

/-- Witness for C9: a well-parsed form with zero `files` parts. -/
theorem c9_bad_request_nothing_stored_witness :
    ((true : Bool) = false ∨ ([] : List FilePart) = []) ∧
    uploadHandlerModel true ([] : List FilePart) = ⟨400, [], [], [], []⟩ :=
  ⟨Or.inr rfl, c9_bad_request_nothing_stored true [] (Or.inr rfl)⟩

/-- Claim C10: when the ledger holds zero records (`fileInfos` never
appended, hence a nil slice — e.g. immediately after the startup reset), GET
/files responds 200 and `encoding/json` encodes the nil slice as the JSON
body `null` (followed by the encoder's newline), not as the empty array
`[]`. -/
theorem c10_empty_ledger_encodes_null (lines : List (List Char))
    (h : scanLedger lines = none) :
    getFileInfosHandlerModel true lines = (200, strL "null" ++ ['\n']) := by
  rw [getFileInfosHandlerModel, if_neg (by simp), h]
  rfl

/-- Witness for C10 at the empty ledger file produced by the startup reset. -/
theorem c10_empty_ledger_encodes_null_witness :
    scanLedger [] = none ∧
    getFileInfosHandlerModel true [] = (200, strL "null" ++ ['\n']) :=
  ⟨rfl, c10_empty_ledger_encodes_null [] rfl⟩
